import Mathlib

/-!
Verification of the search / content-organization core of the pebble note
service (Python sources under `app/`), against its natural-language
specification.

The development shallowly embeds:

* `app/lib/search.py` — the Redis-backed full-text index (`FullTextSearch`):
  state `KV`, operations `indexOp` / `reindexOp` / `deindexOp`, the TF-IDF
  ranking `rankDoc` and the sort performed by `search`;
* `app/model.py` — the tag engine (`Tag.rename_or_merge`, `Tag._merge`,
  `Tag._rename`, `Tag.find_or_create`) over a relational state `TagDB`,
  and the post store (`Post.filter_posts`, `Post.restore`,
  `Post.find_by_ids`) over a row type `PostRow`;
* `app/api.py` — the `parent_id` branch of the `update-post` handler and
  the hydration step of the `search` handler.

Machine integers are `Nat`/`Int`; Redis sets are `Finset Nat`; the real
arithmetic of the ranking (`math.log10`, `math.sqrt`, float division) is
embedded over an arbitrary linear ordered field with the two
transcendental functions as parameters, which keeps every definition
executable (e.g. over `ℚ`) while proving facts that hold for the actual
real-number semantics.  Python exceptions that abort an operation before
any store mutation (the `ValueError` of `reindex`/`deindex`, `abort(400)`,
`AttributeError`) are modelled either as an unchanged state or through
`Except`, as documented on each definition.
-/

/-! ## Token-frequency maps

`FullTextSearch` stores, per document, the JSON serialization of
`collections.Counter(tokens)`: a map from token to occurrence count whose
keys are the distinct tokens.  We represent the map as an association list
in first-occurrence order, mirroring `Counter`'s insertion order. -/

/-- Distinct elements of a list in first-occurrence order (`set`/`Counter`
keys of the Python code).  Structural in the second argument so that it
kernel-evaluates. -/
def distinctAux : List String → List String → List String
  | _, [] => []
  | seen, t :: ts =>
    if seen.contains t then distinctAux seen ts
    else t :: distinctAux (seen ++ [t]) ts

/-- `collections.Counter(tokens)` as an association list: distinct tokens
in first-occurrence order, each paired with its number of occurrences. -/
def counter (tokens : List String) : List (String × Nat) :=
  (distinctAux [] tokens).map (fun t => (t, tokens.count t))

/-- Keys of a stored token-frequency map. -/
def keysOf (F : List (String × Nat)) : List String := F.map (·.1)

/-- `F.get(token, 0)` of the Python code: frequency of `t` in the stored
map, `0` when absent. -/
def tfOf (F : List (String × Nat)) (t : String) : Nat :=
  ((F.find? (fun p => p.1 = t)).map (·.2)).getD 0

/-! ## The key-value store state

`FullTextSearch` keeps, under a configured key prefix:
`doc:{id}:tokens` (serialized token-frequency map), `doc:count`
(integer counter, absent read as 0, moved by `INCR`/`DECR`), and
`token:{T}:docs` (a Redis set of document ids per token). -/

/-- State of the Redis keys used by `FullTextSearch`. -/
structure KV where
  /-- `doc:{id}:tokens`: the stored token-frequency map, when indexed. -/
  docTokens : Nat → Option (List (String × Nat))
  /-- `doc:count`: integer counter (`INCR`/`DECR` semantics). -/
  docCount : Int
  /-- `token:{T}:docs`: posting set of document ids for each token. -/
  tokenDocs : String → Finset Nat

/-- `FullTextSearch.is_indexed`: the `doc:{id}:tokens` key exists. -/
def isIndexed (s : KV) (id : Nat) : Bool := (s.docTokens id).isSome

/-- The empty store: no document keys, `doc:count` absent (= 0), all
posting sets empty. -/
def kvEmpty : KV :=
  { docTokens := fun _ => none, docCount := 0, tokenDocs := fun _ => ∅ }

/-- `FullTextSearch.deindex(id)`: load the stored map; when it is missing
or empty the Python code raises `ValueError` before any write, which we
model as returning the store unchanged; otherwise delete the document key,
decrement `doc:count` and remove `id` from the posting set of every stored
key. -/
def deindexOp (s : KV) (id : Nat) : KV :=
  let F := (s.docTokens id).getD []
  if F.isEmpty then s
  else
    { docTokens := Function.update s.docTokens id none
      docCount := s.docCount - 1
      tokenDocs := fun t =>
        if (keysOf F).contains t then (s.tokenDocs t).erase id
        else s.tokenDocs t }

/-- Body of `FullTextSearch.index` on a not-yet-indexed id (the indexed
case delegates to `reindex`): no-op on an empty token list, else store the
frequency map, increment `doc:count` and add `id` to the posting set of
every distinct token. -/
def indexNew (s : KV) (id : Nat) (tokens : List String) : KV :=
  if tokens.isEmpty then s
  else
    { docTokens := Function.update s.docTokens id (some (counter tokens))
      docCount := s.docCount + 1
      tokenDocs := fun t =>
        if tokens.contains t then insert id (s.tokenDocs t)
        else s.tokenDocs t }

/-- Body of `FullTextSearch.reindex` on an already-indexed id (the
not-indexed case delegates to `index`): an empty token list delegates to
`deindex`; an empty stored map raises `ValueError` before any write
(modelled as the unchanged store); otherwise overwrite the document key
and move `id` out of the posting sets of dropped keys and into those of
new keys.  `doc:count` is untouched on this path. -/
def reindexOld (s : KV) (id : Nat) (tokens : List String) : KV :=
  if tokens.isEmpty then deindexOp s id
  else
    let newF := counter tokens
    let oldF := (s.docTokens id).getD []
    if oldF.isEmpty then s
    else
      { docTokens := Function.update s.docTokens id (some newF)
        docCount := s.docCount
        tokenDocs := fun t =>
          if (keysOf oldF).contains t && !((keysOf newF).contains t) then
            (s.tokenDocs t).erase id
          else if (keysOf newF).contains t && !((keysOf oldF).contains t) then
            insert id (s.tokenDocs t)
          else s.tokenDocs t }

/-- `FullTextSearch.index(id, text)` after `analyze(text)` produced
`tokens` (the analyzer runs the external jieba segmenter, so the
embedding quantifies over its output): delegate to `reindex` when already
indexed. -/
def indexOp (s : KV) (id : Nat) (tokens : List String) : KV :=
  if isIndexed s id then reindexOld s id tokens else indexNew s id tokens

/-- `FullTextSearch.reindex(id, text)` after `analyze(text)` produced
`tokens`: delegate to `index` when not yet indexed. -/
def reindexOp (s : KV) (id : Nat) (tokens : List String) : KV :=
  if isIndexed s id then reindexOld s id tokens else indexNew s id tokens

/-! ## TF-IDF ranking (`FullTextSearch._rank`)

`_rank` fetches `doc:count`, every candidate's stored map and every query
token's posting-set cardinality in one pipeline, then scores each
candidate with a left-to-right loop.  The real arithmetic is embedded
over a linear ordered field `K` with `math.log10` and `math.sqrt` as
function parameters. -/

/-- The scoring loop of `_rank` for one candidate: a left fold over the
query tokens (zipped in the Python code with their pipelined document
frequencies, here read off directly as `dfs t`), accumulating the score
and `matching_terms`. -/
def scoreLoop {K : Type} [LinearOrderedField K] (log10 : K → K) (N : Int)
    (dfs : String → Nat) (F : List (String × Nat)) (tokens : List String) :
    K × Nat :=
  tokens.foldl
    (fun acc t =>
      let tf := tfOf F t
      let df := dfs t
      let ntf : K := if 0 < tf then 1 + log10 (tf : K) else 0
      let idf : K := if 0 < df then log10 (max 1 ((N : K) / (df : K))) else 0
      (acc.1 + ntf * idf, acc.2 + (if 0 < tf then 1 else 0)))
    (0, 0)

/-- Score of one candidate document in `_rank`: the loop total, divided by
`sqrt` of the sum of stored frequencies when that sum is positive, then
weighted by 2 on full coverage and by the coverage ratio otherwise. -/
def rankDoc {K : Type} [LinearOrderedField K] (log10 sqrt : K → K) (N : Int)
    (dfs : String → Nat) (F : List (String × Nat)) (tokens : List String) :
    K :=
  let p := scoreLoop log10 N dfs F tokens
  let total := (F.map (·.2)).sum
  let s := if 0 < total then p.1 / sqrt (total : K) else p.1
  let cov : K := (p.2 : K) / (tokens.length : K)
  if cov = 1 then 2 * s else cov * s

/-- Normalized term frequency exactly as the specification words it:
`1 + log10(tf)` if `tf > 0` else `0`. -/
def specNormTf {K : Type} [LinearOrderedField K] (log10 : K → K)
    (tf : Nat) : K :=
  if 0 < tf then 1 + log10 (tf : K) else 0

/-- Inverse document frequency exactly as the specification words it:
`log10(max(1, N/df))` if `df > 0` else `0`. -/
def specIdf {K : Type} [LinearOrderedField K] (log10 : K → K) (N : Int)
    (df : Nat) : K :=
  if 0 < df then log10 (max 1 ((N : K) / (df : K))) else 0

/-- The candidate score as the specification describes it: the sum over
`t ∈ Q` of `norm_tf(t) × idf(t)`, length-normalized by
`sqrt(sum(F.values()))` when that sum is positive, then doubled when the
coverage `m = |{t ∈ Q : tf > 0}| / |Q|` equals 1 and scaled by `m`
otherwise. -/
def specRankScore {K : Type} [LinearOrderedField K] (log10 sqrt : K → K)
    (N : Int) (dfs : String → Nat) (F : List (String × Nat))
    (Q : List String) : K :=
  let s := (Q.map (fun t => specNormTf log10 (tfOf F t) * specIdf log10 N (dfs t))).sum
  let total := (F.map (·.2)).sum
  let s := if 0 < total then s / sqrt (total : K) else s
  let m : K := ((Q.filter (fun t => 0 < tfOf F t)).length : K) / (Q.length : K)
  if m = 1 then 2 * s else m * s

/-! ## The sort performed by `search`

`search` enumerates the combined candidate set (a Python `set`, whose
iteration order is unspecified), ranks it, and sorts the `(id, score)`
pairs with `sorted(..., key=lambda x: x[1], reverse=True)`.  Python's sort
is stable and `reverse=True` keeps equal-key elements in their original
order; we model it as a stable insertion sort parameterized by a strict
"comes before" test. -/

/-- Insert `x` into `l` before the first element it must strictly
precede; equal-key elements already in `l` stay in front of `x`
(stability). -/
def insertSortedBy {α : Type} (gt : α → α → Bool) (x : α) : List α → List α
  | [] => [x]
  | y :: ys => if gt x y then x :: y :: ys else y :: insertSortedBy gt x ys

/-- Stable sort putting `x` before `y` whenever `gt x y`; elements equal
under `gt` keep their input order (Python `sorted` with `reverse=True`). -/
def sortRevBy {α : Type} (gt : α → α → Bool) (l : List α) : List α :=
  l.foldl (fun acc x => insertSortedBy gt x acc) []

/-- The combined candidate set of `search`: union (`partial=True`) or
intersection (`partial=False`) of the query tokens' posting sets. -/
def candidateSet (s : KV) (tokens : List String) (unionMode : Bool) :
    Finset Nat :=
  match tokens with
  | [] => ∅
  | t :: ts =>
    ts.foldl
      (fun acc u =>
        if unionMode then acc ∪ s.tokenDocs u else acc ∩ s.tokenDocs u)
      (s.tokenDocs t)

/-- The ranking-and-sorting tail of `FullTextSearch.search`: given the
analyzed query `tokens` and the candidate ids in the (unspecified)
enumeration order `ids` of the combined set, score each id against the
store, sort by score descending with Python's stable sort, and truncate
to `limit` when `limit` is nonzero and exceeded. -/
def searchRanked {K : Type} [LinearOrderedField K] (log10 sqrt : K → K)
    (s : KV) (tokens : List String) (ids : List Nat) (limit : Nat) :
    List (Nat × K) :=
  let scored := ids.map (fun id =>
    (id, rankDoc log10 sqrt s.docCount (fun t => (s.tokenDocs t).card)
      ((s.docTokens id).getD []) tokens))
  let ranked := sortRevBy (fun a b => b.2 < a.2) scored
  if limit ≠ 0 && ids.length > limit then ranked.take limit else ranked

/-- The tie-breaking discipline claimed by the specification for `search`:
whenever two entries carry the same score, the one with the larger
document id comes first. -/
def tiesIdDesc {K : Type} [LinearOrderedField K] (l : List (Nat × K)) : Prop :=
  l.Pairwise (fun a b => a.2 = b.2 → b.1 < a.1)

/-! ## Strings of the tag engine

Post contents are rewritten with Python's `str.replace` (all
non-overlapping occurrences, left to right).  We implement it over
`List Char` with an explicit fuel argument (the length of the subject)
so that the definition is structural and kernel-evaluates. -/

/-- `listStartsWith s p`: `p` is a leading segment of `s`. -/
def listStartsWith : List Char → List Char → Bool
  | _, [] => true
  | [], _ :: _ => false
  | a :: as, b :: bs => a = b && listStartsWith as bs

/-- Left-to-right non-overlapping replacement of `pat` by `repl`,
structural in the fuel (callers pass the subject's length, which
suffices because each step consumes at least one character). -/
def replaceAux (pat repl : List Char) : List Char → Nat → List Char
  | s, 0 => s
  | s, fuel + 1 =>
    match s with
    | [] => []
    | c :: rest =>
      if !pat.isEmpty && listStartsWith (c :: rest) pat then
        repl ++ replaceAux pat repl ((c :: rest).drop pat.length) fuel
      else
        c :: replaceAux pat repl rest fuel

/-- Python `s.replace(pat, repl)` for the non-empty patterns
(`">#" + name + "<"`) used by the tag engine. -/
def strReplace (s pat repl : String) : String :=
  ⟨replaceAux pat.data repl.data s.data s.data.length⟩

/-- Python `s.startswith(p)` on character sequences. -/
def strStartsWith (s p : String) : Bool := listStartsWith s.data p.data

/-- Python `s.count('/')`: number of `/` characters in a tag name. -/
def countSlash (s : String) : Nat := s.data.count '/'

/-- `util.replace_prefix` (imported into `model.py` as
`replace_from_start`): replace the leading segment `fromStr` of `s` by
`to` when `s` starts with it, else return `s` unchanged. -/
def replaceFromStart (s fromStr toStr : String) : String :=
  if strStartsWith s fromStr then toStr ++ ⟨s.data.drop fromStr.data.length⟩
  else s

/-! ## The tag store (`Tag`, `tag_post_assoc`, post contents)

A relational snapshot of the rows `rename_or_merge` touches: the `tags`
table, the `posts` table restricted to the columns it reads and writes
(`id`, `content`), and the `tag_post_assoc` association keyed on
`(tag_id, post_id)`.  Tag ids are autoincremented, modelled by
`nextTagId`. -/

/-- A row of the `tags` table (the columns `rename_or_merge` uses). -/
structure TagRow where
  id : Nat
  name : String
deriving DecidableEq

/-- A row of the `posts` table as seen by the tag engine. -/
structure TPost where
  id : Nat
  content : String
deriving DecidableEq

/-- Relational state of the tag engine. -/
structure TagDB where
  tags : List TagRow
  posts : List TPost
  /-- `tag_post_assoc` rows `(tag_id, post_id)`; primary-keyed on the
  pair, so re-linking an already linked post keeps a single row. -/
  assoc : List (Nat × Nat)
  /-- Next autoincrement id for `tags`. -/
  nextTagId : Nat
deriving DecidableEq

/-- `Tag.find_by_name`: first row with the given unique name. -/
def findByName (db : TagDB) (n : String) : Option TagRow :=
  db.tags.find? (fun t => t.name = n)

/-- `Tag.find_or_create`: insert a fresh row when the name is absent. -/
def findOrCreate (db : TagDB) (n : String) : TagDB :=
  if (findByName db n).isSome then db
  else
    { db with
      tags := db.tags ++ [⟨db.nextTagId, n⟩]
      nextTagId := db.nextTagId + 1 }

/-- `Tag._rename`: set the row's name and rewrite `">#" + old + "<"` to
`">#" + new + "<"` in the content of every linked post.  The association
rows are untouched. -/
def renameTag (db : TagDB) (tid : Nat) (oldName newName : String) : TagDB :=
  { db with
    tags := db.tags.map (fun t => if t.id = tid then ⟨t.id, newName⟩ else t)
    posts := db.posts.map (fun p =>
      if db.assoc.contains (tid, p.id) then
        ⟨p.id, strReplace p.content (">#" ++ oldName ++ "<") (">#" ++ newName ++ "<")⟩
      else p) }

/-- `Tag._merge`: for every post linked to the source tag, replace the
link by one to the destination tag (the association table is keyed on
`(tag_id, post_id)`, so an existing destination link is kept as one row)
and rewrite the hashtag span in the post's content.  The source tag row
itself is NOT deleted by the Python code. -/
def mergeTag (db : TagDB) (srcId : Nat) (srcName : String) (dstId : Nat)
    (dstName : String) : TagDB :=
  let linked := (db.assoc.filter (fun a => a.1 = srcId)).map (·.2)
  { db with
    posts := db.posts.map (fun p =>
      if db.assoc.contains (srcId, p.id) then
        ⟨p.id, strReplace p.content (">#" ++ srcName ++ "<") (">#" ++ dstName ++ "<")⟩
      else p)
    assoc := db.assoc.filter (fun a => a.1 ≠ srcId) ++
      (linked.filter (fun pid => !db.assoc.contains (dstId, pid))).map
        (fun pid => (dstId, pid)) }

/-- `Tag.rename_or_merge(name, new_name)`: no-op on equal names; reject
with HTTP 400 (`flask.abort`, modelled as `Except.error`; the abort is
raised before any session mutation, so the store is unchanged) when
`new_name` starts with `name` and has strictly more `/` than `name`;
otherwise create the source tag if absent, snapshot its descendants
(names extending `name + "/"`) and the target row, then merge or rename
each descendant — looking the collision target up in the current state —
and finally merge or rename the source itself. -/
def renameOrMerge (db : TagDB) (name newName : String) :
    Except String TagDB :=
  if name = newName then .ok db
  else if strStartsWith newName name && countSlash name < countSlash newName then
    .error ("cannot move \"" ++ name ++ "\" to a subtag of itself \"" ++
      newName ++ "\"")
  else
    let db1 := findOrCreate db name
    let src := (findByName db1 name).getD ⟨0, name⟩
    let target := findByName db1 newName
    let descs := db1.tags.filter (fun t => strStartsWith t.name (name ++ "/"))
    let db2 := descs.foldl
      (fun acc d =>
        let dNew := replaceFromStart d.name name newName
        match findByName acc dNew with
        | some nd => mergeTag acc d.id d.name nd.id nd.name
        | none => renameTag acc d.id d.name dNew)
      db1
    match target with
    | some tg => .ok (mergeTag db2 src.id src.name tg.id tg.name)
    | none => .ok (renameTag db2 src.id src.name newName)

/-- Names of all tag rows, in table order. -/
def tagNames (db : TagDB) : List String := db.tags.map (·.name)

/-- The concrete scenario of the specification: tags
`a, a/b, a/c, x, x/b`, post 1 linked to `a/b`, post 2 linked to `a/c`,
each post's content carrying the corresponding hashtag span. -/
def dbC1 : TagDB :=
  { tags := [⟨1, "a"⟩, ⟨2, "a/b"⟩, ⟨3, "a/c"⟩, ⟨4, "x"⟩, ⟨5, "x/b"⟩]
    posts := [⟨1, "<span class=\"hash-tag\">#a/b</span>"⟩,
              ⟨2, "<span class=\"hash-tag\">#a/c</span>"⟩]
    assoc := [(2, 1), (3, 2)]
    nextTagId := 6 }

/-- The state the embedded `rename_or_merge("a", "x")` actually produces
on `dbC1`: `a/b` is merged into `x/b` (post 1 re-linked, content
rewritten), `a/c` is renamed to `x/c` (post 2's content rewritten), the
source `a` is merged into the existing `x` (no linked posts remain), and
the rows `a` (id 1) and `a/b` (id 2) are left in the table. -/
def dbC1After : TagDB :=
  { tags := [⟨1, "a"⟩, ⟨2, "a/b"⟩, ⟨3, "x/c"⟩, ⟨4, "x"⟩, ⟨5, "x/b"⟩]
    posts := [⟨1, "<span class=\"hash-tag\">#x/b</span>"⟩,
              ⟨2, "<span class=\"hash-tag\">#x/c</span>"⟩]
    assoc := [(3, 2), (5, 1)]
    nextTagId := 6 }

/-! ## The post store (`Post`) and the API handlers

Rows of the `posts` table with the columns the verified operations read
or write.  Timestamps are milliseconds since the epoch (`Int`); the
`onupdate` refresh of `updated_at` depends on the wall clock and is
abstracted away (no verified claim mentions it). -/

/-- A row of the `posts` table. -/
structure PostRow where
  id : Nat
  content : String
  files : Option String
  color : Option String
  shared : Bool
  parentId : Option Nat
  childrenCount : Int
  createdAt : Int
  updatedAt : Int
  deletedAt : Option Int
deriving DecidableEq

/-- `Post.find_by_ids`: live rows (`deleted_at IS NULL`) whose id is in
`ids`, in table order. -/
def findByIds (posts : List PostRow) (ids : List Nat) : List PostRow :=
  posts.filter (fun p => p.deletedAt.isNone && ids.contains p.id)

/-- Score lookup of the `/search` handler: the dict comprehension
`scores = .. for id, score in results ..` keeps the last binding of a
key; `scores[post.id]` then reads it (every hydrated post's id occurs in
`results`, so the default is never taken). -/
def scoreOf {K : Type} (results : List (Nat × K)) [Zero K] (id : Nat) : K :=
  ((results.reverse.find? (fun r => r.1 = id)).map (·.2)).getD 0

/-- One entry of the `/search` response: the DTO fields the claims
observe (relevance score, creation time, and the hydrated row). -/
structure SearchItem (K : Type) where
  score : K
  createdAt : Int
  post : PostRow
deriving DecidableEq

/-- Python tuple comparison `(score, created_at) > (score', created_at')`
used as the sort key of the `/search` handler. -/
def lexGt {K : Type} [LinearOrderedField K] (a b : K × Int) : Bool :=
  a.1 > b.1 || (a.1 = b.1 && a.2 > b.2)

/-- The `/search` handler after the index returned `results`: hydrate the
ids through `Post.find_by_ids` (dropping soft-deleted and missing rows),
attach each post's score, and stable-sort by `(score, created_at)`
descending. -/
def searchHydrate {K : Type} [LinearOrderedField K]
    (posts : List PostRow) (results : List (Nat × K)) : List (SearchItem K) :=
  let hydrated := (findByIds posts (results.map (·.1))).map
    (fun p => SearchItem.mk (scoreOf results p.id) p.createdAt p)
  sortRevBy (fun a b => lexGt (a.score, a.createdAt) (b.score, b.createdAt))
    hydrated

/-- Python truthiness of an optional string (`if color:` / `if tag:`):
present and non-empty. -/
def truthyStr (o : Option String) : Bool := o.getD "" ≠ ""

/-- Python truthiness of an optional integer (`if cursor:` /
`if start_date:` / `if end_date:`): present and nonzero. -/
def truthyInt (o : Option Int) : Bool := o.getD 0 ≠ 0

/-- The three values of `filter_posts`' `order_by` parameter. -/
inductive OrderField
  | createdAt
  | updatedAt
  | deletedAt
deriving DecidableEq

/-- Value of the order column on a row (`deleted_at` is nullable). -/
def orderVal : OrderField → PostRow → Option Int
  | .createdAt, p => some p.createdAt
  | .updatedAt, p => some p.updatedAt
  | .deletedAt, p => p.deletedAt

/-- SQL `<` on a nullable column, with `NULL` ordered below every value
for `ORDER BY` purposes (SQLite sorts NULLs first ascending). -/
def optLt : Option Int → Option Int → Bool
  | none, none => false
  | none, some _ => true
  | some _, none => false
  | some a, some b => a < b

/-- SQL comparison of the order column against the cursor: a `NULL`
column value satisfies neither `> cursor` nor `< cursor`. -/
def cursorKeeps (f : OrderField) (ascending : Bool) (cur : Int)
    (p : PostRow) : Bool :=
  match orderVal f p with
  | none => false
  | some v => if ascending then cur < v else v < cur

/-- `Post.filter_posts`: compose the optional predicates (soft-delete
state, `parent_id` equality when the argument is not `None`, truthy
`color`, truthy `tag` via the tag join — modelled as an existence test
over the tag and association tables —, truthy `start_date`/`end_date`
bounds on `created_at`, explicit `shared` and `has_files` tests, truthy
`cursor` against the order column), order by the chosen column, and take
`per_page` rows. -/
def filterPosts (posts : List PostRow) (tagRows : List TagRow)
    (assoc : List (Nat × Nat)) (cursor : Option Int) (deleted : Bool)
    (parentId : Option Nat) (color : Option String) (tag : Option String)
    (startDate endDate : Option Int) (shared hasFiles : Option Bool)
    (orderBy : OrderField) (ascending : Bool) (perPage : Nat) :
    List PostRow :=
  let q := posts.filter (fun p =>
    (if deleted then p.deletedAt.isSome else p.deletedAt.isNone) &&
    (match parentId with
     | some pid => p.parentId == some pid
     | none => true) &&
    (if truthyStr color then p.color == color else true) &&
    (if truthyStr tag then
       tagRows.any (fun t =>
         (t.name == tag.getD "" || strStartsWith t.name (tag.getD "" ++ "/")) &&
         assoc.contains (t.id, p.id))
     else true) &&
    (if truthyInt startDate then startDate.getD 0 ≤ p.createdAt else true) &&
    (if truthyInt endDate then p.createdAt ≤ endDate.getD 0 else true) &&
    (match shared with
     | some b => p.shared == b
     | none => true) &&
    (match hasFiles with
     | some b => if b then p.files.isSome else p.files.isNone
     | none => true) &&
    (if truthyInt cursor then cursorKeeps orderBy ascending (cursor.getD 0) p
     else true))
  let sorted := sortRevBy
    (fun a b =>
      if ascending then optLt (orderVal orderBy a) (orderVal orderBy b)
      else optLt (orderVal orderBy b) (orderVal orderBy a))
    q
  sorted.take perPage

/-- `Post.restore` as invoked by the `/restore-post` handler
(`db.get_or_404` then `post.restore()`, with no liveness check): clear
`deleted_at` on the addressed row and, when its `parent_id` is truthy,
increment the parent row's `children_count` — unconditionally, even when
the post was not soft-deleted. -/
def restoreOp (posts : List PostRow) (id : Nat) : List PostRow :=
  match posts.find? (fun p => p.id == id) with
  | none => posts
  | some post =>
    let posts1 := posts.map (fun q =>
      if q.id == id then { q with deletedAt := none } else q)
    if post.parentId.getD 0 ≠ 0 then
      posts1.map (fun q =>
        if q.id == post.parentId.getD 0 then
          { q with childrenCount := q.childrenCount + 1 }
        else q)
    else posts1

/-- The `parent_id` branch of the `/update-post` handler, for a payload
whose only present field is `parent_id` (absent fields are skipped via
the `missing` sentinel): 404 on a missing or soft-deleted row; on a
non-null → null transition decrement the old parent's `children_count`
(`post.parent` resolves the still-unchanged foreign key); on a
null → non-null transition the handler evaluates
`post.parent.children_count += 1` while `post.parent` is still `None`,
which raises `AttributeError` (modelled as `Except.error`); otherwise
just store the new `parent_id`. -/
def updatePostParentId (posts : List PostRow) (id : Nat)
    (value : Option Nat) : Except String (List PostRow) :=
  match posts.find? (fun p => p.id == id) with
  | none => .error "404 post not found"
  | some post =>
    if post.deletedAt.isSome then .error "404 post not found"
    else if post.parentId.isSome && value.isNone then
      match posts.find? (fun q => some q.id == post.parentId) with
      | none => .error "AttributeError: NoneType has no attribute children_count"
      | some _ =>
        .ok ((posts.map (fun q =>
          if some q.id == post.parentId then
            { q with childrenCount := q.childrenCount - 1 }
          else q)).map (fun q =>
            if q.id == id then { q with parentId := value } else q))
    else if post.parentId.isNone && value.isSome then
      .error "AttributeError: NoneType has no attribute children_count"
    else
      .ok (posts.map (fun q =>
        if q.id == id then { q with parentId := value } else q))

/-- First row carrying a given id. -/
def rowById (posts : List PostRow) (id : Nat) : Option PostRow :=
  posts.find? (fun p => p.id == id)

/-! ## Concrete states used by witnesses and counterexamples -/

/-- Store with two indexed documents of identical content (token `bar`
once each) so that their TF-IDF scores coincide for every choice of
`log10`/`sqrt`. -/
def kvC5 : KV :=
  { docTokens := fun i => if i = 1 ∨ i = 2 then some [("bar", 1)] else none
    docCount := 2
    tokenDocs := fun t => if t = "bar" then {1, 2} else ∅ }

/-- The common score of the two identical documents of `kvC5` under
`log10 = sqrt = id` over `ℚ` (its numeric value is irrelevant to the
tie-break counterexample: both documents receive this same score). -/
def rC5 : ℚ :=
  rankDoc id id 2 (fun t => (kvC5.tokenDocs t).card) [("bar", 1)] ["bar"]

/-- Store in which document 7 is NOT indexed but the posting set of
`foo` still (stale) contains 7. -/
def kvC6 : KV :=
  { docTokens := fun _ => none
    docCount := 0
    tokenDocs := fun t => if t = "foo" then {7} else ∅ }

/-- Two live root posts: the update-post scenario re-parenting post 1
under post 2. -/
def postsC2 : List PostRow :=
  [⟨1, "p1", none, none, false, none, 0, 10, 10, none⟩,
   ⟨2, "p2", none, none, false, none, 0, 20, 20, none⟩]

/-- One live post that has a parent (`parent_id = 7`). -/
def postsC9 : List PostRow :=
  [⟨3, "child", none, none, false, some 7, 0, 30, 30, none⟩]

/-- A parent with one recorded child, and its live child: the
restore-an-already-live-post scenario. -/
def postsC10 : List PostRow :=
  [⟨1, "parent", none, none, false, none, 1, 10, 10, none⟩,
   ⟨2, "child", none, none, false, some 1, 0, 20, 20, none⟩]

/-! ## Theorems -/

theorem scoreLoop_foldl {K : Type} [LinearOrderedField K] (log10 : K → K)
    (N : Int) (dfs : String → Nat) (F : List (String × Nat)) :
    ∀ (ts : List String) (acc : K × Nat),
      ts.foldl
        (fun acc t =>
          let tf := tfOf F t
          let df := dfs t
          let ntf : K := if 0 < tf then 1 + log10 (tf : K) else 0
          let idf : K := if 0 < df then log10 (max 1 ((N : K) / (df : K))) else 0
          (acc.1 + ntf * idf, acc.2 + (if 0 < tf then 1 else 0)))
        acc
      = (acc.1 +
          (ts.map (fun t => specNormTf log10 (tfOf F t) * specIdf log10 N (dfs t))).sum,
         acc.2 + (ts.filter (fun t => 0 < tfOf F t)).length) := by
  intro ts
  induction ts with
  | nil => intro acc; simp
  | cons t ts ih =>
    intro acc
    rw [List.foldl_cons, ih]
    refine Prod.ext ?_ ?_
    · simp [specNormTf, specIdf, add_assoc]
    · by_cases h : 0 < tfOf F t
      · simp only [List.filter_cons, h, decide_True, if_true]
        simp
        omega
      · simp [List.filter_cons, h]

/-- The scoring loop of `_rank` computes the specification's sum of
`norm_tf × idf` and the number of matching query positions. -/
theorem scoreLoop_eq {K : Type} [LinearOrderedField K] (log10 : K → K)
    (N : Int) (dfs : String → Nat) (F : List (String × Nat))
    (ts : List String) :
    scoreLoop log10 N dfs F ts
    = ((ts.map (fun t => specNormTf log10 (tfOf F t) * specIdf log10 N (dfs t))).sum,
       (ts.filter (fun t => 0 < tfOf F t)).length) := by
  rw [scoreLoop, scoreLoop_foldl]
  simp

/-- C3: for every query token sequence `Q` and candidate document with
stored token-frequency map `F = doc:{id}:tokens`, the score `_rank`
computes equals the specification's formula: the sum over `t ∈ Q` of
`norm_tf(t) × idf(t)` — with `norm_tf = 1 + log10(tf)` if `tf > 0` else
`0` and `idf = log10(max(1, N/df))` if `df > 0` else `0`, `N` the stored
doc count and `df` the posting-set cardinality — divided by
`sqrt(sum(F.values()))` when that sum is positive, then doubled when the
coverage `m = |{t ∈ Q : tf > 0}| / |Q|` (positions counted in sequence
order) equals 1 and multiplied by `m` otherwise. -/
theorem rank_matches_spec_formula {K : Type} [LinearOrderedField K]
    (log10 sqrt : K → K) (kv : KV) (id : Nat) (Q : List String) :
    rankDoc log10 sqrt kv.docCount (fun t => (kv.tokenDocs t).card)
      ((kv.docTokens id).getD []) Q
    = specRankScore log10 sqrt kv.docCount (fun t => (kv.tokenDocs t).card)
      ((kv.docTokens id).getD []) Q := by
  simp only [rankDoc, specRankScore, scoreLoop_eq]

/-- C4 (amended): for every already-indexed document id, `reindex`
leaves `doc:count` unchanged whenever the new text analyzes to at least
one token (on an empty analysis it delegates to `deindex`, which
decrements the counter). -/
theorem reindex_preserves_docCount (kv : KV) (id : Nat)
    (tokens : List String) (h1 : isIndexed kv id = true)
    (h2 : tokens ≠ []) :
    (reindexOp kv id tokens).docCount = kv.docCount := by
  have ht : tokens.isEmpty = false := by
    cases tokens with
    | nil => exact absurd rfl h2
    | cons a l => rfl
  simp only [reindexOp, h1, if_true, reindexOld, ht, Bool.false_eq_true,
    if_false]
  split
  · rfl
  · rfl

/-- Witness for `reindex_preserves_docCount`: document 1 indexed with
token `hello`, reindexed with token `bye`. -/
theorem reindex_preserves_docCount_witness :
    isIndexed (indexOp kvEmpty 1 ["hello"]) 1 = true ∧
    (["bye"] : List String) ≠ [] ∧
    (reindexOp (indexOp kvEmpty 1 ["hello"]) 1 ["bye"]).docCount
      = (indexOp kvEmpty 1 ["hello"]).docCount :=
  ⟨by decide, by decide,
    reindex_preserves_docCount (indexOp kvEmpty 1 ["hello"]) 1 ["bye"]
      (by decide) (by decide)⟩

/-- C4 counterexample: document 1 is indexed with token `hello`, yet
`reindex(1, "")` (the empty text analyzes to no tokens) changes
`doc:count` — it delegates to `deindex`, which decrements it from 1
to 0.  This refutes the claim as stated for the text `""`. -/
theorem reindex_empty_changes_docCount :
    isIndexed (indexOp kvEmpty 1 ["hello"]) 1 = true ∧
    (reindexOp (indexOp kvEmpty 1 ["hello"]) 1 []).docCount
      ≠ (indexOp kvEmpty 1 ["hello"]).docCount := by
  constructor
  · decide
  · decide

theorem mem_distinctAux (t : String) :
    ∀ (l seen : List String), t ∈ distinctAux seen l ↔ t ∈ l ∧ t ∉ seen := by
  intro l
  induction l with
  | nil => intro seen; simp [distinctAux]
  | cons a l ih =>
    intro seen
    by_cases h : seen.contains a
    · have ha : a ∈ seen := List.elem_iff.mp h
      simp only [distinctAux, if_pos h, ih, List.mem_cons]
      constructor
      · rintro ⟨hl, hs⟩
        exact ⟨Or.inr hl, hs⟩
      · rintro ⟨hla | hl, hs⟩
        · exact absurd (hla ▸ ha) hs
        · exact ⟨hl, hs⟩
    · have ha : a ∉ seen := fun hc => h (List.elem_iff.mpr hc)
      simp only [distinctAux, if_neg h, List.mem_cons, ih,
        List.mem_append, List.mem_singleton]
      by_cases hta : t = a
      · subst hta; simp [ha]
      · simp only [hta, false_or, or_false]
        tauto

theorem mem_keysOf_counter (tokens : List String) (t : String) :
    t ∈ keysOf (counter tokens) ↔ t ∈ tokens := by
  simp only [keysOf, counter, List.map_map, List.mem_map]
  constructor
  · rintro ⟨u, hu, he⟩
    have : u = t := he
    subst this
    exact ((mem_distinctAux u tokens []).mp hu).1
  · intro ht
    exact ⟨t, (mem_distinctAux t tokens []).mpr ⟨ht, by simp⟩, rfl⟩

theorem counter_isEmpty_eq (tokens : List String) :
    (counter tokens).isEmpty = tokens.isEmpty := by
  cases tokens with
  | nil => rfl
  | cons a l => rfl

/-- C6 (amended): for every id that is not currently indexed and such
that no posting set currently contains it, and for every token list,
`index(id, t); deindex(id)` restores `doc:count` and afterwards no
`token:{T}:docs` posting set contains `id`.  (Without the
no-stale-posting hypothesis the claim fails: see the counterexample.) -/
theorem index_deindex_roundtrip (kv : KV) (id : Nat) (tokens : List String)
    (h1 : isIndexed kv id = false)
    (h2 : ∀ t, id ∉ kv.tokenDocs t) :
    (deindexOp (indexOp kv id tokens) id).docCount = kv.docCount ∧
    ∀ t, id ∉ (deindexOp (indexOp kv id tokens) id).tokenDocs t := by
  have hnone : kv.docTokens id = none := by
    cases hkv : kv.docTokens id with
    | none => rfl
    | some v => rw [isIndexed, hkv] at h1; simp at h1
  by_cases he : tokens.isEmpty
  · have hkv2 : indexOp kv id tokens = kv := by
      simp [indexOp, isIndexed, hnone, indexNew, he]
    have hkv3 : deindexOp kv id = kv := by
      simp [deindexOp, hnone]
    rw [hkv2, hkv3]
    exact ⟨rfl, h2⟩
  · have hne : tokens.isEmpty = false := by simpa using he
    have hidx : indexOp kv id tokens = indexNew kv id tokens := by
      simp [indexOp, isIndexed, hnone]
    rw [hidx]
    have hF : ((indexNew kv id tokens).docTokens id).getD [] = counter tokens := by
      simp [indexNew, hne]
    have hFne : (counter tokens).isEmpty = false := by
      rw [counter_isEmpty_eq]; exact hne
    constructor
    · show (deindexOp (indexNew kv id tokens) id).docCount = kv.docCount
      rw [deindexOp]
      simp only [hF, hFne, Bool.false_eq_true, if_false]
      simp [indexNew, hne]
    · intro t
      rw [deindexOp]
      simp only [hF, hFne, Bool.false_eq_true, if_false]
      by_cases hmem : t ∈ keysOf (counter tokens)
      · simp only [if_pos (List.elem_iff.mpr hmem)]
        exact Finset.not_mem_erase id _
      · have hnc : (keysOf (counter tokens)).contains t = false := by
          cases hc : (keysOf (counter tokens)).contains t with
          | false => rfl
          | true => exact absurd (List.elem_iff.mp hc) hmem
        simp only [hnc, Bool.false_eq_true, if_false]
        have htok : t ∉ tokens := fun hc =>
          hmem ((mem_keysOf_counter tokens t).mpr hc)
        have hcontains : tokens.contains t = false := by
          cases hc : tokens.contains t with
          | false => rfl
          | true => exact absurd (List.elem_iff.mp hc) htok
        simp only [indexNew, hne, Bool.false_eq_true, if_false]
        simp only [hcontains, Bool.false_eq_true, if_false]
        exact h2 t

/-- Witness for `index_deindex_roundtrip`: id 5 on the empty store with
token list `["x"]`. -/
theorem index_deindex_roundtrip_witness :
    isIndexed kvEmpty 5 = false ∧
    (deindexOp (indexOp kvEmpty 5 ["x"]) 5).docCount = kvEmpty.docCount ∧
    ∀ t, 5 ∉ (deindexOp (indexOp kvEmpty 5 ["x"]) 5).tokenDocs t :=
  ⟨by decide,
    (index_deindex_roundtrip kvEmpty 5 ["x"] (by decide)
      (fun t => by simp [kvEmpty])).1,
    (index_deindex_roundtrip kvEmpty 5 ["x"] (by decide)
      (fun t => by simp [kvEmpty])).2⟩

/-- C6 counterexample: in `kvC6` document 7 is not indexed, yet the
posting set of `foo` stale-contains 7; after `index(7, ["bar"])` followed
by `deindex(7)` the posting set of `foo` still contains 7, refuting the
claim as stated (`doc:count` is nevertheless restored). -/
theorem index_deindex_leaves_stale_posting :
    isIndexed kvC6 7 = false ∧
    (deindexOp (indexOp kvC6 7 ["bar"]) 7).docCount = kvC6.docCount ∧
    7 ∈ (deindexOp (indexOp kvC6 7 ["bar"]) 7).tokenDocs "foo" := by
  refine ⟨by decide, by decide, by decide⟩

theorem mem_insertSortedBy {α : Type} (gt : α → α → Bool) (x y : α) :
    ∀ l : List α, y ∈ insertSortedBy gt x l ↔ y = x ∨ y ∈ l := by
  intro l
  induction l with
  | nil => simp [insertSortedBy]
  | cons z zs ih =>
    simp only [insertSortedBy]
    split
    · simp only [List.mem_cons]
    · simp only [List.mem_cons, ih]
      tauto

theorem mem_sortRevBy {α : Type} (gt : α → α → Bool) (l : List α) (y : α) :
    y ∈ sortRevBy gt l ↔ y ∈ l := by
  suffices h : ∀ (l acc : List α),
      y ∈ l.foldl (fun acc x => insertSortedBy gt x acc) acc ↔
        y ∈ acc ∨ y ∈ l by
    rw [sortRevBy, h]
    simp
  intro l
  induction l with
  | nil => intro acc; simp
  | cons x xs ih =>
    intro acc
    rw [List.foldl_cons, ih]
    simp only [mem_insertSortedBy, List.mem_cons]
    tauto

theorem pairwise_insert_score {K : Type} [LinearOrderedField K]
    (x : Nat × K) (l : List (Nat × K))
    (h : l.Pairwise (fun a b => b.2 ≤ a.2)) :
    (insertSortedBy (fun a b => b.2 < a.2) x l).Pairwise
      (fun a b => b.2 ≤ a.2) := by
  induction l with
  | nil => simp [insertSortedBy]
  | cons y ys ih =>
    rw [List.pairwise_cons] at h
    obtain ⟨hy, hys⟩ := h
    simp only [insertSortedBy]
    split
    case isTrue hgt =>
      have hlt : y.2 < x.2 := of_decide_eq_true hgt
      refine List.Pairwise.cons ?_ (List.Pairwise.cons hy hys)
      intro b hb
      rcases List.mem_cons.mp hb with hb | hb
      · exact hb ▸ le_of_lt hlt
      · exact le_trans (hy b hb) (le_of_lt hlt)
    case isFalse hng =>
      have hle : x.2 ≤ y.2 := le_of_not_lt (fun hc => hng (decide_eq_true hc))
      refine List.Pairwise.cons ?_ (ih hys)
      intro b hb
      rcases (mem_insertSortedBy _ x b ys).mp hb with hb | hb
      · exact hb ▸ hle
      · exact hy b hb

theorem sortRevBy_score_sorted {K : Type} [LinearOrderedField K]
    (l : List (Nat × K)) :
    (sortRevBy (fun a b => b.2 < a.2) l).Pairwise (fun a b => b.2 ≤ a.2) := by
  suffices h : ∀ (l acc : List (Nat × K)),
      acc.Pairwise (fun a b => b.2 ≤ a.2) →
      (l.foldl (fun acc x => insertSortedBy (fun a b => b.2 < a.2) x acc)
        acc).Pairwise (fun a b => b.2 ≤ a.2) by
    exact h l [] (by simp)
  intro l
  induction l with
  | nil => intro acc hacc; simpa using hacc
  | cons x xs ih =>
    intro acc hacc
    rw [List.foldl_cons]
    exact ih _ (pairwise_insert_score x acc hacc)

theorem filter_insert_score {K : Type} [LinearOrderedField K]
    (c : K) (x : Nat × K) (l : List (Nat × K))
    (h : l.Pairwise (fun a b => b.2 ≤ a.2)) :
    (insertSortedBy (fun a b => b.2 < a.2) x l).filter (fun p => p.2 = c)
    = if x.2 = c then l.filter (fun p => p.2 = c) ++ [x]
      else l.filter (fun p => p.2 = c) := by
  induction l with
  | nil =>
    by_cases hx : x.2 = c <;> simp [insertSortedBy, List.filter_cons, hx]
  | cons y ys ih =>
    rw [List.pairwise_cons] at h
    obtain ⟨hy, hys⟩ := h
    simp only [insertSortedBy]
    split
    case isTrue hgt =>
      have hlt : y.2 < x.2 := of_decide_eq_true hgt
      by_cases hx : x.2 = c
      · have hnil : (y :: ys).filter (fun p => p.2 = c) = [] := by
          rw [List.filter_eq_nil_iff]
          intro b hb
          rcases List.mem_cons.mp hb with hb | hb
          · subst hb
            simp only [decide_eq_true_eq]
            exact ne_of_lt (hx ▸ hlt)
          · simp only [decide_eq_true_eq]
            exact ne_of_lt (lt_of_le_of_lt (hy b hb) (hx ▸ hlt))
        rw [if_pos hx, hnil, List.filter_cons, if_pos (by simp [hx]), hnil]
        simp
      · rw [if_neg hx, List.filter_cons]
        rw [if_neg (by simp [hx])]
    case isFalse hng =>
      rw [List.filter_cons, List.filter_cons, ih hys]
      by_cases hyc : y.2 = c <;> by_cases hx : x.2 = c <;>
        simp [hyc, hx]

theorem filter_sortRevBy_score {K : Type} [LinearOrderedField K]
    (c : K) (l : List (Nat × K)) :
    (sortRevBy (fun a b => b.2 < a.2) l).filter (fun p => p.2 = c)
    = l.filter (fun p => p.2 = c) := by
  suffices h : ∀ (l acc : List (Nat × K)),
      acc.Pairwise (fun a b => b.2 ≤ a.2) →
      (l.foldl (fun acc x => insertSortedBy (fun a b => b.2 < a.2) x acc)
        acc).filter (fun p => p.2 = c)
      = acc.filter (fun p => p.2 = c) ++ l.filter (fun p => p.2 = c) by
    rw [sortRevBy, h l [] (by simp)]
    simp
  intro l
  induction l with
  | nil => intro acc hacc; simp
  | cons x xs ih =>
    intro acc hacc
    rw [List.foldl_cons, ih _ (pairwise_insert_score x acc hacc),
      filter_insert_score c x acc hacc, List.filter_cons]
    by_cases hx : x.2 = c
    · rw [if_pos hx, if_pos (by simp [hx])]
      simp
    · rw [if_neg hx, if_neg (by simp [hx])]

/-- C5 (amended): the list returned by `search` is sorted by score
descending, and — the sort key being the score alone and Python's sort
being stable — entries with equal scores appear in the candidate
enumeration order (that of an unordered Python set), not by document id.
Stability is stated through filters: for every score value, the
equal-score entries of the output are exactly the equal-score entries of
the scored candidate list, in the same order. -/
theorem searchRanked_sorted_and_stable {K : Type} [LinearOrderedField K]
    (log10 sqrt : K → K) (s : KV) (tokens : List String) (ids : List Nat)
    (limit : Nat) :
    (searchRanked log10 sqrt s tokens ids limit).Pairwise
      (fun a b => b.2 ≤ a.2) ∧
    ∀ c : K,
      (searchRanked log10 sqrt s tokens ids 0).filter (fun p => p.2 = c)
      = (ids.map (fun id =>
          (id, rankDoc log10 sqrt s.docCount (fun t => (s.tokenDocs t).card)
            ((s.docTokens id).getD []) tokens))).filter (fun p => p.2 = c) := by
  constructor
  · simp only [searchRanked]
    split
    · exact List.Pairwise.sublist (List.take_sublist _ _)
        (sortRevBy_score_sorted _)
    · exact sortRevBy_score_sorted _
  · intro c
    simp only [searchRanked]
    rw [if_neg (by simp)]
    exact filter_sortRevBy_score c _

/-- C5 counterexample: with two identically-indexed documents (`kvC5`),
query token `bar` and candidate enumeration order `[1, 2]` (CPython's
set iteration order for the set holding the two small ints 1 and 2; the
candidate set is indeed `{1, 2}`), the returned list is
`[(1, rC5), (2, rC5)]` over `ℚ` with `log10 = sqrt = id`: the two scores
are equal — both documents store the same token map — and the SMALLER id
comes first, refuting the claimed id-descending tie-break. -/
theorem searchRanked_equal_scores_id_ascending :
    candidateSet kvC5 ["bar"] true = {1, 2} ∧
    searchRanked (K := ℚ) id id kvC5 ["bar"] [1, 2] 0 = [(1, rC5), (2, rC5)] ∧
    ¬ tiesIdDesc (searchRanked (K := ℚ) id id kvC5 ["bar"] [1, 2] 0) := by
  have h : searchRanked (K := ℚ) id id kvC5 ["bar"] [1, 2] 0
      = [(1, rC5), (2, rC5)] := by
    simp [searchRanked, kvC5, rC5, sortRevBy, insertSortedBy, lt_irrefl]
  refine ⟨by decide, h, ?_⟩
  rw [tiesIdDesc, h]
  intro hp
  rw [List.pairwise_cons] at hp
  have h2 := hp.1 (2, rC5) (by simp) rfl
  simp at h2

/-- C7: every entry of the `/search` response is a live, existing row:
the handler hydrates the index's ids through `Post.find_by_ids`, which
filters `deleted_at IS NULL` and `id IN ids`, so an id whose row is
soft-deleted or absent is silently dropped and the response never
contains a soft-deleted post, even while the index still holds its
tokens. -/
theorem searchHydrate_only_live {K : Type} [LinearOrderedField K]
    (posts : List PostRow) (results : List (Nat × K)) :
    ((searchHydrate posts results).all
      (fun it => it.post.deletedAt.isNone && posts.contains it.post)) = true := by
  rw [List.all_eq_true]
  intro it hit
  simp only [searchHydrate, mem_sortRevBy, List.mem_map] at hit
  obtain ⟨p, hp, rfl⟩ := hit
  rw [findByIds, List.mem_filter] at hp
  obtain ⟨hmem, hpred⟩ := hp
  rw [Bool.and_eq_true] at hpred
  simp only [Bool.and_eq_true]
  exact ⟨hpred.1, List.elem_iff.mpr hmem⟩

/-- C1 (amended): on the scenario state `{a, a/b, a/c, x, x/b}` with post
1 linked to `a/b` and post 2 linked to `a/c`, `rename_or_merge("a", "x")`
merges `a/b` into the existing `x/b` (post 1 re-linked to `x/b`, its
content rewritten `>#a/b<` → `>#x/b<`), renames `a/c` to `x/c` (post 2's
content rewritten), and merges the source `a` into the existing `x` —
but the merged source tag rows are NOT deleted: the rows named `a` and
`a/b` remain in the table with no linked posts, so the final tag names
are `a, a/b, x/c, x, x/b`. -/
theorem renameOrMerge_scenario :
    renameOrMerge dbC1 "a" "x" = Except.ok dbC1After ∧
    tagNames dbC1After = ["a", "a/b", "x/c", "x", "x/b"] ∧
    dbC1After.assoc = [(3, 2), (5, 1)] ∧
    dbC1After.posts = [⟨1, "<span class=\"hash-tag\">#x/b</span>"⟩,
      ⟨2, "<span class=\"hash-tag\">#x/c</span>"⟩] :=
  ⟨rfl, rfl, rfl, rfl⟩

/-- C1 counterexample: after `rename_or_merge("a", "x")` completes on
the scenario state, tag rows named `a` and `a/b` still exist — the
code's `_merge` re-links posts and rewrites contents but never deletes
the source tag row — refuting the claim that no tag row remains whose
name equals `name` or starts with `name + "/"`. -/
theorem renameOrMerge_leaves_merged_tag_rows :
    renameOrMerge dbC1 "a" "x" = Except.ok dbC1After ∧
    "a" ∈ tagNames dbC1After ∧ "a/b" ∈ tagNames dbC1After :=
  ⟨rfl, by decide, by decide⟩

/-- C8: `rename_or_merge(name, new_name)` aborts with HTTP 400 whenever
`new_name` starts with `name` and contains strictly more `/` characters
(equivalently, strictly more `/`-separated segments, a string having one
more segment than `/` characters); the abort is raised before any
session mutation, so every tag and post row is left unchanged.  The
names are necessarily distinct under these hypotheses. -/
theorem renameOrMerge_rejects_subtree_move (db : TagDB)
    (name newName : String) (h1 : strStartsWith newName name = true)
    (h2 : countSlash name < countSlash newName) :
    renameOrMerge db name newName
      = Except.error ("cannot move \"" ++ name ++
          "\" to a subtag of itself \"" ++ newName ++ "\"") := by
  have hne : name ≠ newName := by
    intro he
    exact absurd h2 (by rw [he]; exact lt_irrefl _)
  have hc : (strStartsWith newName name &&
      decide (countSlash name < countSlash newName)) = true := by
    rw [h1, decide_eq_true h2]
    rfl
  rw [renameOrMerge, if_neg hne, if_pos hc]

/-- Witness for `renameOrMerge_rejects_subtree_move`:
`rename_or_merge("a", "a/b")` on the scenario state is rejected. -/
theorem renameOrMerge_rejects_subtree_move_witness :
    strStartsWith "a/b" "a" = true ∧ countSlash "a" < countSlash "a/b" ∧
    renameOrMerge dbC1 "a" "a/b"
      = Except.error "cannot move \"a\" to a subtag of itself \"a/b\"" :=
  ⟨by decide, by decide,
    renameOrMerge_rejects_subtree_move dbC1 "a" "a/b" (by decide) (by decide)⟩

/-- C2 (code bug): updating a live root post (post 1, `parent_id` null)
to set `parent_id` to the existing post 2 does not succeed and does not
increment post 2's `children_count`: the handler evaluates
`post.parent.children_count += 1` while `post.parent` still resolves the
old null foreign key to `None`, raising `AttributeError` (an HTTP 500),
exactly as this embedding of the handler branch returns. -/
theorem updateParent_null_to_nonnull_raises :
    updatePostParentId postsC2 1 (some 2)
      = Except.error "AttributeError: NoneType has no attribute children_count" :=
  rfl

/-- C9 (amended): whenever a non-null `parent_id` is supplied,
`filter_posts` applies the equality filter: every returned post has that
parent.  (A null `parent_id` — explicitly supplied or omitted, which the
`Optional[int] = None` DTO field cannot distinguish — applies no parent
filter at all: see the counterexample.) -/
theorem filterPosts_parent_equality (posts : List PostRow)
    (tagRows : List TagRow) (assoc : List (Nat × Nat)) (cursor : Option Int)
    (deleted : Bool) (pid : Nat) (color tag : Option String)
    (startDate endDate : Option Int) (shared hasFiles : Option Bool)
    (orderBy : OrderField) (ascending : Bool) (perPage : Nat) :
    ((filterPosts posts tagRows assoc cursor deleted (some pid) color tag
        startDate endDate shared hasFiles orderBy ascending perPage).all
      (fun p => p.parentId == some pid)) = true := by
  rw [List.all_eq_true]
  intro p hp
  simp only [filterPosts] at hp
  have hp2 := List.take_subset _ _ hp
  rw [mem_sortRevBy, List.mem_filter] at hp2
  have hpred := hp2.2
  simp only [Bool.and_eq_true] at hpred
  exact hpred.1.1.1.1.1.1.1.2

/-- C9 counterexample: calling `filter_posts` with `parent_id` null (the
DTO's explicit-null and absent cases coincide on `None`, and the code's
`if parent_id is not None` then skips the filter) returns the post whose
`parent_id` is 7 — a post that has a parent — refuting the claim that an
explicitly supplied null returns only posts whose `parent_id` is null. -/
theorem filterPosts_null_parent_returns_children :
    filterPosts postsC9 [] [] none false none none none none none none none
      OrderField.createdAt false 20 = postsC9 ∧
    (postsC9.head?.map (·.parentId)) = some (some 7) :=
  ⟨rfl, rfl⟩

theorem find_id_of_nodup (posts : List PostRow) (p : PostRow)
    (hnd : (posts.map (·.id)).Nodup) (hp : p ∈ posts) :
    posts.find? (fun q => q.id == p.id) = some p := by
  induction posts with
  | nil => cases hp
  | cons a rest ih =>
    rw [List.map_cons, List.nodup_cons] at hnd
    rcases List.mem_cons.mp hp with hp | hp
    · subst hp
      rw [List.find?_cons_of_pos _ (by simp)]
    · have hne : a.id ≠ p.id := by
        intro he
        exact hnd.1 (he ▸ List.mem_map_of_mem (·.id) hp)
      rw [List.find?_cons_of_neg _ (by simp [hne]), ih hnd.2 hp]

theorem rowById_map (f : PostRow → PostRow) (hf : ∀ q, (f q).id = q.id)
    (posts : List PostRow) (i : Nat) :
    rowById (posts.map f) i = (rowById posts i).map f := by
  induction posts with
  | nil => rfl
  | cons a rest ih =>
    rw [List.map_cons, rowById, rowById]
    by_cases h : (a.id == i) = true
    · have hfa : ((f a).id == i) = true := by rw [hf]; exact h
      rw [List.find?_cons_of_pos (p := fun (q : PostRow) => q.id == i) _ hfa,
        List.find?_cons_of_pos (p := fun (q : PostRow) => q.id == i) _ h]
      rfl
    · have hfa : ¬ ((f a).id == i) = true := by rw [hf]; exact h
      rw [List.find?_cons_of_neg (p := fun (q : PostRow) => q.id == i) _ hfa,
        List.find?_cons_of_neg (p := fun (q : PostRow) => q.id == i) _ h]
      exact ih

/-- C10: for every restore-post call on a post whose `parent_id` is set
(to a real row id, hence nonzero — SQLite autoincrement ids start at 1,
and `Post.restore` tests the field with Python truthiness), the parent
row's `children_count` is incremented by exactly 1 and the post's
`deleted_at` is set to null, with NO hypothesis on the post's prior
soft-delete state: restoring an already-live post still increments the
parent's count. -/
theorem restore_increments_parent (posts : List PostRow) (p : PostRow)
    (pid : Nat) (hnd : (posts.map (·.id)).Nodup) (hp : p ∈ posts)
    (hpar : p.parentId = some pid) (hpid : pid ≠ 0) :
    (rowById (restoreOp posts p.id) p.id).map (·.deletedAt) = some none ∧
    (rowById (restoreOp posts p.id) pid).map (·.childrenCount)
      = (rowById posts pid).map (·.childrenCount + 1) := by
  have hfind : posts.find? (fun q => q.id == p.id) = some p :=
    find_id_of_nodup posts p hnd hp
  have hrowp : rowById posts p.id = some p := hfind
  have hgd : p.parentId.getD 0 = pid := by rw [hpar]; rfl
  have hres : restoreOp posts p.id
      = (posts.map (fun q =>
          if q.id == p.id then { q with deletedAt := none } else q)).map
        (fun q => if q.id == pid then
          { q with childrenCount := q.childrenCount + 1 } else q) := by
    rw [restoreOp, hfind]
    simp only [hgd]
    rw [if_pos hpid]
  have hf1 : ∀ q : PostRow,
      ((fun q => if q.id == p.id then { q with deletedAt := none } else q) q).id
        = q.id := by
    intro q
    by_cases h : (q.id == p.id) = true <;> simp [h]
  have hf2 : ∀ q : PostRow,
      ((fun q => if q.id == pid then
          { q with childrenCount := q.childrenCount + 1 } else q) q).id
        = q.id := by
    intro q
    by_cases h : (q.id == pid) = true <;> simp [h]
  constructor
  · rw [hres, rowById_map _ hf2, rowById_map _ hf1, hrowp]
    by_cases h : p.id = pid <;> simp [h]
  · rw [hres, rowById_map _ hf2, rowById_map _ hf1]
    cases hrow : rowById posts pid with
    | none => rfl
    | some par =>
      have hpareq : par.id = pid := by
        simpa using List.find?_some hrow
      by_cases h : par.id = p.id
      · have hppid : p.id = pid := h ▸ hpareq
        simp [h, hpareq, hppid]
      · have hnp : ¬ pid = p.id := fun he => h (hpareq.trans he)
        simp [h, hpareq, hnp]

/-- Witness for `restore_increments_parent`: restoring the live child
post 2 (parent post 1, `children_count` currently 1) leaves the child's
`deleted_at` null and bumps the parent's `children_count` by one even
though the child was never soft-deleted. -/
theorem restore_increments_parent_witness :
    (postsC10.map (·.id)).Nodup ∧
    (⟨2, "child", none, none, false, some 1, 0, 20, 20, none⟩ : PostRow)
      ∈ postsC10 ∧
    (rowById (restoreOp postsC10 2) 2).map (·.deletedAt) = some none ∧
    (rowById (restoreOp postsC10 2) 1).map (·.childrenCount)
      = (rowById postsC10 1).map (·.childrenCount + 1) :=
  ⟨by decide, by decide,
    (restore_increments_parent postsC10
      ⟨2, "child", none, none, false, some 1, 0, 20, 20, none⟩ 1
      (by decide) (by decide) rfl (by decide)).1,
    (restore_increments_parent postsC10
      ⟨2, "child", none, none, false, some 1, 0, 20, 20, none⟩ 1
      (by decide) (by decide) rfl (by decide)).2⟩
